import Mathlib

/-!
# Verification of the langserv multiplexer (`langserv/langserv.py`)

A shallow embedding of the single-threaded readiness-driven connection
multiplexer: the incremental frame parser (`util.Parser`, modelled from the
design spec since its source is not part of this tree), the per-connection
state machine (`LangServ`), and the connection pool (`LangServPool`).

Bytes are modelled as `List Nat`, socket handles as `Nat`, the selectors
registrar as an association list from handle to interest mask, and all
side effects (register / modify / unregister / socket close / recv / send /
accept) as an explicit effect trace.
-/

namespace Langserv

/-- Byte strings are lists of byte values. -/
abbrev Bytes := List Nat

/-- Byte encoding of an ASCII string literal. -/
def strB (s : String) : Bytes := s.toList.map Char.toNat

/-- Association-list lookup (first match wins; our update discipline keeps
keys unique, emulating a Python dict). -/
def aget {κ α : Type} [DecidableEq κ] : List (κ × α) → κ → Option α
  | [], _ => none
  | (k, v) :: rest, h => if k = h then some v else aget rest h

/-- Association-list delete (Python `del d[k]`; removes every binding of `k`). -/
def aerase {κ α : Type} [DecidableEq κ] : List (κ × α) → κ → List (κ × α)
  | [], _ => []
  | (k1, v) :: rest, k =>
    if k1 = k then aerase rest k else (k1, v) :: aerase rest k

/-- Association-list insert/overwrite (Python `d[k] = v`). -/
def aset {κ α : Type} [DecidableEq κ] (l : List (κ × α)) (k : κ) (v : α) :
    List (κ × α) :=
  (k, v) :: aerase l k

theorem aget_aerase_self {κ α : Type} [DecidableEq κ] (l : List (κ × α)) (k : κ) :
    aget (aerase l k) k = none := by
  induction l with
  | nil => rfl
  | cons p rest ih =>
    cases p with
    | mk k1 v1 =>
      by_cases hp : k1 = k
      · simpa [aerase, hp] using ih
      · simpa [aerase, hp, aget] using ih

theorem aget_aerase_ne {κ α : Type} [DecidableEq κ] (l : List (κ × α)) (k k' : κ)
    (h : k' ≠ k) : aget (aerase l k) k' = aget l k' := by
  induction l with
  | nil => rfl
  | cons p rest ih =>
    cases p with
    | mk k1 v1 =>
      by_cases hp : k1 = k
      · have hne : k1 ≠ k' := fun he => h (he.symm.trans hp)
        simp only [aerase, if_pos hp, aget, if_neg hne]
        exact ih
      · by_cases he : k1 = k'
        · simp [aerase, hp, aget, he, h]
        · simp only [aerase, if_neg hp, aget, if_neg he]
          exact ih

theorem aget_aset_self {κ α : Type} [DecidableEq κ] (l : List (κ × α)) (k : κ) (v : α) :
    aget (aset l k v) k = some v := by
  simp [aset, aget]

theorem aget_aset_ne {κ α : Type} [DecidableEq κ] (l : List (κ × α)) (k k' : κ) (v : α)
    (h : k' ≠ k) : aget (aset l k v) k' = aget l k' := by
  simp only [aset, aget, if_neg (fun he : k = k' => h (he.symm))]
  exact aget_aerase_ne l k k' h

/-! ## Frame parser

Modelled from the spec: the incremental frame parser `util.Parser` is code of
this repository that is not under `src/` (only its caller `langserv.py` is),
so it is reconstructed from the design spec's §4.1: two sub-states HEADER and
BODY(n); in HEADER the accumulator is scanned for the empty line ending the
header block (header lines terminated by `\n` or `\r\n`), the header block is
split into `Name: Value` pairs on the first colon with surrounding whitespace
trimmed, `Content-Length` is converted to an integer (missing or non-numeric
fails the connection); in BODY(n) exactly `n` bytes are sliced off as the body
and the frame `(content, body, headers)` is emitted, continuing the scan loop
in case another full frame is already buffered. -/

/-- Split one header line off the front of a byte sequence: the line's bytes
(without its terminator), the terminator itself (`\n` or `\r\n`), and the
remainder.  Returns `none` when no complete line is present yet — in
particular when the bytes end in a bare `\r` that may be the first half of a
`\r\n` terminator split across chunks. -/
def splitLine : Bytes → Option (Bytes × Bytes × Bytes)
  | [] => none
  | c :: rest =>
    if c = 10 then some ([], [10], rest)
    else if c = 13 then
      match rest with
      | [] => none
      | d :: rest2 =>
        if d = 10 then some ([], [13, 10], rest2)
        else
          match splitLine rest with
          | none => none
          | some (line, term, r) => some (c :: line, term, r)
    else
      match splitLine rest with
      | none => none
      | some (line, term, r) => some (c :: line, term, r)

/-- Split a complete header block (ending in an empty line) off the front of
the accumulator, with explicit fuel: the header lines, the raw header-block
bytes including the blank line, and the leftover bytes.  `none` when the
accumulator does not yet contain the block-terminating empty line. -/
def shbF : Nat → Bytes → Option (List Bytes × Bytes × Bytes)
  | 0, _ => none
  | fuel + 1, l =>
    match splitLine l with
    | none => none
    | some (line, term, rest) =>
      if line = [] then some ([], term, rest)
      else
        match shbF fuel rest with
        | none => none
        | some (lines, raw, rest2) => some (line :: lines, line ++ term ++ raw, rest2)

/-- Scan the accumulator for the empty line ending the header block.  Each
consumed line eats at least one byte, so `length + 1` fuel always suffices. -/
def splitHeaderBlock (l : Bytes) : Option (List Bytes × Bytes × Bytes) :=
  shbF (l.length + 1) l

/-- ASCII space or horizontal tab. -/
def isWsB (c : Nat) : Bool := c = 32 || c = 9

/-- Trim surrounding whitespace from a header name or value. -/
def trimB (l : Bytes) : Bytes :=
  ((l.dropWhile isWsB).reverse.dropWhile isWsB).reverse

/-- Split a header line on the first `:` into name and value bytes. -/
def splitColon : Bytes → Option (Bytes × Bytes)
  | [] => none
  | c :: rest =>
    if c = 58 then some ([], rest)
    else
      match splitColon rest with
      | none => none
      | some (n, v) => some (c :: n, v)

/-- Header map: header-name bytes to header-value bytes. -/
abbrev HMap := List (Bytes × Bytes)

/-- Parse one header line into a trimmed `(name, value)` pair; a line with no
colon is a protocol violation. -/
def parseHeaderLine (l : Bytes) : Option (Bytes × Bytes) :=
  match splitColon l with
  | none => none
  | some (n, v) => some (trimB n, trimB v)

/-- Parse the header lines into a header map (later duplicates overwrite,
like a Python dict). -/
def parseHeaders : List Bytes → Option HMap
  | [] => some []
  | line :: rest =>
    match parseHeaderLine line with
    | none => none
    | some (n, v) =>
      match parseHeaders rest with
      | none => none
      | some m => some (aset m n v)

/-- Parse a decimal ASCII integer; fails on the empty string or any
non-digit byte. -/
def parseDec (l : Bytes) : Option Nat :=
  if l = [] then none
  else
    l.foldlM (fun acc c => if 48 ≤ c && c ≤ 57 then some (acc * 10 + (c - 48)) else none) 0

/-- Look up and parse the mandatory `Content-Length` header. -/
def contentLength (hs : HMap) : Option Nat :=
  match aget hs (strB "Content-Length") with
  | none => none
  | some v => parseDec v

/-- Parser sub-state: scanning header lines, or awaiting `n` body bytes with
the raw header-block bytes and parsed headers retained. -/
inductive PMode where
  | header : PMode
  | body : Nat → Bytes → HMap → PMode
deriving DecidableEq

/-- Parser state: sub-state, byte accumulator, and the failed flag set on a
framing protocol violation. -/
structure PState where
  mode : PMode
  acc : Bytes
  failed : Bool
deriving DecidableEq

/-- A decoded frame: raw content bytes, exactly `Content-Length` body bytes,
and the header map. -/
structure Frame where
  content : Bytes
  body : Bytes
  headers : HMap
deriving DecidableEq

/-- Initial parser state. -/
def pInit : PState := ⟨PMode.header, [], false⟩

/-- One step of the parser scan loop: `none` when the parser is stuck
awaiting more bytes (or failed); otherwise at most one emitted frame and the
successor state. -/
def step (s : PState) : Option (Option Frame × PState) :=
  match s.failed, s.mode with
  | true, _ => none
  | false, PMode.header =>
      match splitHeaderBlock s.acc with
      | none => none
      | some (lines, raw, rest) =>
        match parseHeaders lines with
        | none => some (none, ⟨PMode.header, rest, true⟩)
        | some hs =>
          match contentLength hs with
          | none => some (none, ⟨PMode.header, rest, true⟩)
          | some n => some (none, ⟨PMode.body n raw hs, rest, false⟩)
  | false, PMode.body n raw hs =>
      if n ≤ s.acc.length then
        some (some ⟨raw ++ s.acc.take n, s.acc.take n, hs⟩,
              ⟨PMode.header, s.acc.drop n, false⟩)
      else none

/-- Rank used in the parser's termination measure. -/
def modeRank : PMode → Nat
  | PMode.header => 0
  | PMode.body _ _ _ => 1

/-- Termination measure: every parser step strictly decreases it. -/
def pmeas (s : PState) : Nat := 2 * s.acc.length + modeRank s.mode

/-- Run the scan loop for at most `fuel` steps, collecting emitted frames. -/
def processF : Nat → PState → List Frame × PState
  | 0, s => ([], s)
  | fuel + 1, s =>
    match step s with
    | none => ([], s)
    | some (f?, s1) =>
      match processF fuel s1 with
      | (fs, s2) => (f?.toList ++ fs, s2)

/-- Run the scan loop to quiescence (`pmeas + 1` fuel always suffices). -/
def process (s : PState) : List Frame × PState := processF (pmeas s + 1) s

/-- Feed a chunk of received bytes: append to the accumulator and run the
scan loop, emitting zero or more completed frames. -/
def feed (s : PState) (chunk : Bytes) : List Frame × PState :=
  process { s with acc := s.acc ++ chunk }

/-- Feed a list of chunks in order, concatenating the emitted frames. -/
def feedAll (s : PState) : List Bytes → List Frame × PState
  | [] => ([], s)
  | c :: cs =>
    match feed s c with
    | (fs, s1) =>
      match feedAll s1 cs with
      | (fs2, s2) => (fs ++ fs2, s2)

/-! ## Parser lemmas: incremental feeding is insensitive to chunk boundaries -/




theorem splitLine_rest_lt :
    ∀ (l a t r : Bytes), splitLine l = some (a, t, r) → r.length < l.length := by
  intro l
  induction l with
  | nil => intro a t r h; simp [splitLine] at h
  | cons c rest ih =>
    intro a t r h
    rw [splitLine.eq_def] at h
    dsimp only at h
    by_cases h10 : c = 10
    · rw [if_pos h10] at h
      simp only [Option.some.injEq, Prod.mk.injEq] at h
      obtain ⟨-, -, hr⟩ := h
      subst hr
      simp
    · rw [if_neg h10] at h
      by_cases h13 : c = 13
      · rw [if_pos h13] at h
        cases rest with
        | nil => simp at h
        | cons d rest2 =>
          dsimp only at h
          by_cases hd : d = 10
          · rw [if_pos hd] at h
            simp only [Option.some.injEq, Prod.mk.injEq] at h
            obtain ⟨-, -, hr⟩ := h
            subst hr
            simp only [List.length_cons]
            omega
          · rw [if_neg hd] at h
            cases hsl : splitLine (d :: rest2) with
            | none => rw [hsl] at h; simp at h
            | some v =>
              obtain ⟨line, term, r2⟩ := v
              rw [hsl] at h
              dsimp only at h
              simp only [Option.some.injEq, Prod.mk.injEq] at h
              obtain ⟨-, -, hr⟩ := h
              subst hr
              have := ih line term r2 hsl
              simp only [List.length_cons] at *
              omega
      · rw [if_neg h13] at h
        cases hsl : splitLine rest with
        | none => rw [hsl] at h; simp at h
        | some v =>
          obtain ⟨line, term, r2⟩ := v
          rw [hsl] at h
          dsimp only at h
          simp only [Option.some.injEq, Prod.mk.injEq] at h
          obtain ⟨-, -, hr⟩ := h
          subst hr
          have := ih line term r2 hsl
          simp only [List.length_cons]
          omega

theorem splitLine_append :
    ∀ (l b a t r : Bytes), splitLine l = some (a, t, r) →
      splitLine (l ++ b) = some (a, t, r ++ b) := by
  intro l
  induction l with
  | nil => intro b a t r h; simp [splitLine] at h
  | cons c rest ih =>
    intro b a t r h
    rw [splitLine.eq_def] at h
    dsimp only at h
    rw [List.cons_append, splitLine.eq_def]
    dsimp only
    by_cases h10 : c = 10
    · rw [if_pos h10] at h ⊢
      simp only [Option.some.injEq, Prod.mk.injEq] at h
      obtain ⟨ha, ht, hr⟩ := h
      subst ha; subst ht; subst hr
      rfl
    · rw [if_neg h10] at h ⊢
      by_cases h13 : c = 13
      · rw [if_pos h13] at h ⊢
        cases rest with
        | nil => simp at h
        | cons d rest2 =>
          dsimp only at h
          rw [List.cons_append]
          dsimp only
          by_cases hd : d = 10
          · rw [if_pos hd] at h ⊢
            simp only [Option.some.injEq, Prod.mk.injEq] at h
            obtain ⟨ha, ht, hr⟩ := h
            subst ha; subst ht; subst hr
            rfl
          · rw [if_neg hd] at h ⊢
            cases hsl : splitLine (d :: rest2) with
            | none => rw [hsl] at h; simp at h
            | some v =>
              obtain ⟨line, term, r2⟩ := v
              rw [hsl] at h
              dsimp only at h
              simp only [Option.some.injEq, Prod.mk.injEq] at h
              obtain ⟨ha, ht, hr⟩ := h
              subst ha; subst ht; subst hr
              have h2 := ih b line term r2 hsl
              rw [List.cons_append] at h2
              rw [h2]
      · rw [if_neg h13] at h ⊢
        cases hsl : splitLine rest with
        | none => rw [hsl] at h; simp at h
        | some v =>
          obtain ⟨line, term, r2⟩ := v
          rw [hsl] at h
          dsimp only at h
          simp only [Option.some.injEq, Prod.mk.injEq] at h
          obtain ⟨ha, ht, hr⟩ := h
          subst ha; subst ht; subst hr
          rw [ih b line term r2 hsl]


theorem shbF_rest_lt :
    ∀ (fuel : Nat) (l : Bytes) (lines : List Bytes) (raw rest : Bytes),
      shbF fuel l = some (lines, raw, rest) → rest.length < l.length := by
  intro fuel
  induction fuel with
  | zero => intro l lines raw rest h; simp [shbF] at h
  | succ fuel ih =>
    intro l lines raw rest h
    rw [shbF] at h
    cases hsl : splitLine l with
    | none => rw [hsl] at h; simp at h
    | some v =>
      obtain ⟨line, term, r⟩ := v
      rw [hsl] at h
      dsimp only at h
      by_cases hl : line = []
      · rw [if_pos hl] at h
        simp only [Option.some.injEq, Prod.mk.injEq] at h
        obtain ⟨-, -, hr⟩ := h
        exact hr ▸ splitLine_rest_lt l line term r hsl
      · rw [if_neg hl] at h
        cases hrec : shbF fuel r with
        | none => rw [hrec] at h; simp at h
        | some w =>
          obtain ⟨lines2, raw2, rest2⟩ := w
          rw [hrec] at h
          dsimp only at h
          simp only [Option.some.injEq, Prod.mk.injEq] at h
          obtain ⟨-, -, hr⟩ := h
          exact hr ▸ Nat.lt_trans (ih r lines2 raw2 rest2 hrec)
            (splitLine_rest_lt l line term r hsl)

theorem shbF_append :
    ∀ (fuel : Nat) (l b : Bytes) (lines : List Bytes) (raw rest : Bytes),
      shbF fuel l = some (lines, raw, rest) →
      shbF fuel (l ++ b) = some (lines, raw, rest ++ b) := by
  intro fuel
  induction fuel with
  | zero => intro l b lines raw rest h; simp [shbF] at h
  | succ fuel ih =>
    intro l b lines raw rest h
    rw [shbF] at h
    rw [shbF]
    cases hsl : splitLine l with
    | none => rw [hsl] at h; simp at h
    | some v =>
      obtain ⟨line, term, r⟩ := v
      rw [hsl] at h
      dsimp only at h
      rw [splitLine_append l b line term r hsl]
      dsimp only
      by_cases hl : line = []
      · rw [if_pos hl] at h ⊢
        simp only [Option.some.injEq, Prod.mk.injEq] at h
        obtain ⟨h1, h2, h3⟩ := h
        subst h1; subst h2; subst h3
        rfl
      · rw [if_neg hl] at h ⊢
        cases hrec : shbF fuel r with
        | none => rw [hrec] at h; simp at h
        | some w =>
          obtain ⟨lines2, raw2, rest2⟩ := w
          rw [hrec] at h
          dsimp only at h
          simp only [Option.some.injEq, Prod.mk.injEq] at h
          obtain ⟨h1, h2, h3⟩ := h
          subst h3; subst h1; subst h2
          rw [ih r b lines2 raw2 rest2 hrec]

theorem shbF_mono :
    ∀ (f f2 : Nat) (l : Bytes) (x : List Bytes × Bytes × Bytes),
      f ≤ f2 → shbF f l = some x → shbF f2 l = some x := by
  intro f
  induction f with
  | zero => intro f2 l x hle h; simp [shbF] at h
  | succ f ih =>
    intro f2 l x hle h
    cases f2 with
    | zero => omega
    | succ f2 =>
      rw [shbF] at h
      rw [shbF]
      cases hsl : splitLine l with
      | none => rw [hsl] at h; simp at h
      | some v =>
        obtain ⟨line, term, r⟩ := v
        rw [hsl] at h
        dsimp only at h ⊢
        by_cases hl : line = []
        · rw [if_pos hl] at h ⊢
          exact h
        · rw [if_neg hl] at h ⊢
          cases hrec : shbF f r with
          | none => rw [hrec] at h; simp at h
          | some w =>
            rw [hrec] at h
            rw [ih f2 r w (by omega) hrec]
            exact h

theorem splitHeaderBlock_append (l b : Bytes) (lines : List Bytes) (raw rest : Bytes)
    (h : splitHeaderBlock l = some (lines, raw, rest)) :
    splitHeaderBlock (l ++ b) = some (lines, raw, rest ++ b) := by
  have h1 := shbF_append (l.length + 1) l b lines raw rest h
  exact shbF_mono (l.length + 1) ((l ++ b).length + 1) (l ++ b) (lines, raw, rest ++ b)
    (by simp [List.length_append]) h1

theorem splitHeaderBlock_rest_lt (l : Bytes) (lines : List Bytes) (raw rest : Bytes)
    (h : splitHeaderBlock l = some (lines, raw, rest)) : rest.length < l.length :=
  shbF_rest_lt (l.length + 1) l lines raw rest h


/-- Append freshly received bytes to a parser state's accumulator. -/
def pushB (s : PState) (b : Bytes) : PState := ⟨s.mode, s.acc ++ b, s.failed⟩

theorem pushB_pushB (s : PState) (a b : Bytes) :
    pushB (pushB s a) b = pushB s (a ++ b) := by
  simp [pushB, List.append_assoc]

theorem step_meas (s : PState) (f? : Option Frame) (s1 : PState)
    (h : step s = some (f?, s1)) : pmeas s1 < pmeas s := by
  obtain ⟨mode, acc, failed⟩ := s
  cases failed with
  | true => simp [step] at h
  | false =>
    cases mode with
    | header =>
      simp only [step] at h
      cases hsb : splitHeaderBlock acc with
      | none => rw [hsb] at h; simp at h
      | some v =>
        obtain ⟨lines, raw, rest⟩ := v
        rw [hsb] at h
        dsimp only at h
        have hlt := splitHeaderBlock_rest_lt acc lines raw rest hsb
        cases hph : parseHeaders lines with
        | none =>
          rw [hph] at h
          dsimp only at h
          simp only [Option.some.injEq, Prod.mk.injEq] at h
          obtain ⟨-, h2⟩ := h
          rw [← h2]
          simp only [pmeas, modeRank]
          omega
        | some hs =>
          rw [hph] at h
          dsimp only at h
          cases hcl : contentLength hs with
          | none =>
            rw [hcl] at h
            dsimp only at h
            simp only [Option.some.injEq, Prod.mk.injEq] at h
            obtain ⟨-, h2⟩ := h
            rw [← h2]
            simp only [pmeas, modeRank]
            omega
          | some n =>
            rw [hcl] at h
            dsimp only at h
            simp only [Option.some.injEq, Prod.mk.injEq] at h
            obtain ⟨-, h2⟩ := h
            rw [← h2]
            simp only [pmeas, modeRank]
            omega
    | body n raw hs =>
      simp only [step] at h
      by_cases hn : n ≤ acc.length
      · rw [if_pos hn] at h
        simp only [Option.some.injEq, Prod.mk.injEq] at h
        obtain ⟨-, h2⟩ := h
        rw [← h2]
        simp only [pmeas, modeRank, List.length_drop]
        omega
      · rw [if_neg hn] at h
        simp at h

theorem step_append (s : PState) (b : Bytes) (f? : Option Frame) (s1 : PState)
    (h : step s = some (f?, s1)) :
    step (pushB s b) = some (f?, pushB s1 b) := by
  obtain ⟨mode, acc, failed⟩ := s
  cases failed with
  | true => simp [step] at h
  | false =>
    cases mode with
    | header =>
      simp only [step] at h
      simp only [pushB, step]
      cases hsb : splitHeaderBlock acc with
      | none => rw [hsb] at h; simp at h
      | some v =>
        obtain ⟨lines, raw, rest⟩ := v
        rw [hsb] at h
        dsimp only at h
        rw [splitHeaderBlock_append acc b lines raw rest hsb]
        dsimp only
        cases hph : parseHeaders lines with
        | none =>
          rw [hph] at h
          dsimp only at h
          simp only [Option.some.injEq, Prod.mk.injEq] at h
          obtain ⟨h1, h2⟩ := h
          rw [← h1, ← h2]
        | some hs =>
          rw [hph] at h
          dsimp only at h
          dsimp only
          cases hcl : contentLength hs with
          | none =>
            rw [hcl] at h
            dsimp only at h
            simp only [Option.some.injEq, Prod.mk.injEq] at h
            obtain ⟨h1, h2⟩ := h
            rw [← h1, ← h2]
          | some n =>
            rw [hcl] at h
            dsimp only at h
            simp only [Option.some.injEq, Prod.mk.injEq] at h
            obtain ⟨h1, h2⟩ := h
            rw [← h1, ← h2]
    | body n raw hs =>
      simp only [step] at h
      by_cases hn : n ≤ acc.length
      · rw [if_pos hn] at h
        simp only [Option.some.injEq, Prod.mk.injEq] at h
        obtain ⟨h1, h2⟩ := h
        simp only [pushB, step]
        rw [if_pos (show n ≤ (acc ++ b).length by
          simp only [List.length_append]; omega)]
        rw [List.take_append_of_le_length hn, List.drop_append_of_le_length hn]
        rw [← h1, ← h2]
      · rw [if_neg hn] at h
        simp at h

theorem processF_irrel :
    ∀ (f1 f2 : Nat) (s : PState), pmeas s < f1 → pmeas s < f2 →
      processF f1 s = processF f2 s := by
  intro f1
  induction f1 with
  | zero => intro f2 s h1 h2; omega
  | succ f1 ih =>
    intro f2 s h1 h2
    cases f2 with
    | zero => omega
    | succ f2 =>
      rw [processF, processF]
      cases hst : step s with
      | none => rfl
      | some v =>
        obtain ⟨f?, s1⟩ := v
        have hm := step_meas s f? s1 hst
        dsimp only
        rw [ih f2 s1 (by omega) (by omega)]

theorem process_of_stuck (s : PState) (h : step s = none) : process s = ([], s) := by
  rw [process, processF, h]

theorem process_step (s : PState) (f? : Option Frame) (s1 : PState)
    (h : step s = some (f?, s1)) :
    process s = (f?.toList ++ (process s1).1, (process s1).2) := by
  have hm := step_meas s f? s1 h
  rw [process, processF, h]
  dsimp only
  rw [processF_irrel (pmeas s) (pmeas s1 + 1) s1 (by omega) (by omega)]
  rw [process]

theorem process_append_aux :
    ∀ (n : Nat) (s : PState) (b : Bytes), pmeas s ≤ n →
      process (pushB s b) =
        ((process s).1 ++ (process (pushB (process s).2 b)).1,
         (process (pushB (process s).2 b)).2) := by
  intro n
  induction n with
  | zero =>
    intro s b hle
    cases hst : step s with
    | none =>
      simp [process_of_stuck s hst]
    | some v =>
      obtain ⟨f?, s1⟩ := v
      have := step_meas s f? s1 hst
      omega
  | succ n ih =>
    intro s b hle
    cases hst : step s with
    | none =>
      simp [process_of_stuck s hst]
    | some v =>
      obtain ⟨f?, s1⟩ := v
      have hm := step_meas s f? s1 hst
      have hsa := step_append s b f? s1 hst
      rw [process_step (pushB s b) f? (pushB s1 b) hsa]
      rw [process_step s f? s1 hst]
      dsimp only
      rw [ih s1 b (by omega)]
      simp [List.append_assoc]

theorem process_append (s : PState) (b : Bytes) :
    process (pushB s b) =
      ((process s).1 ++ (process (pushB (process s).2 b)).1,
       (process (pushB (process s).2 b)).2) :=
  process_append_aux (pmeas s) s b (Nat.le_refl _)

theorem process_snd_stuck_aux :
    ∀ (n : Nat) (s : PState), pmeas s ≤ n → step (process s).2 = none := by
  intro n
  induction n with
  | zero =>
    intro s hle
    cases hst : step s with
    | none => rw [process_of_stuck s hst]; exact hst
    | some v =>
      obtain ⟨f?, s1⟩ := v
      have := step_meas s f? s1 hst
      omega
  | succ n ih =>
    intro s hle
    cases hst : step s with
    | none => rw [process_of_stuck s hst]; exact hst
    | some v =>
      obtain ⟨f?, s1⟩ := v
      have hm := step_meas s f? s1 hst
      rw [process_step s f? s1 hst]
      exact ih s1 (by omega)

theorem process_snd_stuck (s : PState) : step (process s).2 = none :=
  process_snd_stuck_aux (pmeas s) s (Nat.le_refl _)

theorem feed_pushB (s : PState) (c : Bytes) : feed s c = process (pushB s c) := rfl

theorem feedAll_join :
    ∀ (cs : List Bytes) (s : PState), step s = none →
      feedAll s cs = feed s cs.flatten := by
  intro cs
  induction cs with
  | nil =>
    intro s h
    rw [feedAll, feed_pushB]
    simp [pushB, process_of_stuck s h]
  | cons c cs ih =>
    intro s h
    rw [feedAll]
    rcases hf : feed s c with ⟨fs, s1⟩
    have hs1 : step s1 = none := by
      have hp := process_snd_stuck (pushB s c)
      rw [← feed_pushB, hf] at hp
      exact hp
    dsimp only
    rw [ih s1 hs1]
    have hj : List.flatten (c :: cs) = c ++ List.flatten cs := rfl
    have hf2 : process (pushB s c) = (fs, s1) := hf
    rw [hj, feed_pushB s (c ++ List.flatten cs), ← pushB_pushB]
    rw [process_append (pushB s c) (List.flatten cs)]
    rw [hf2]
    dsimp only
    rw [feed_pushB s1 (List.flatten cs)]

/-- C8: for every byte sequence forming one valid frame (feeding it whole
from the initial parser state emits exactly one frame and returns the parser
to the initial state), and for every way of splitting that sequence into
chunks fed to `feed` in order, exactly one frame is emitted, equal (content,
body and headers) to the frame of the unsplit parse, regardless of where the
split points fall. -/
theorem frame_reconstruction_chunking (w : Bytes) (f : Frame) (chunks : List Bytes)
    (hvalid : feed pInit w = ([f], pInit)) (hsplit : chunks.flatten = w) :
    feedAll pInit chunks = ([f], pInit) := by
  have hstuck : step pInit = none := rfl
  rw [feedAll_join chunks pInit hstuck, hsplit, hvalid]

/-- Wire bytes of the spec's end-to-end example frame. -/
def wFrameBytes : Bytes := strB "Content-Length: 5\r\n\r\nhello"

/-- Decoded form of the example frame. -/
def wFrame : Frame := ⟨wFrameBytes, strB "hello", [(strB "Content-Length", strB "5")]⟩

/-- Witness for C8: the example frame split after byte 10 (mid-header) is
reassembled into exactly one frame with the expected body and headers. -/
theorem frame_reconstruction_chunking_inst :
    feedAll pInit [wFrameBytes.take 10, wFrameBytes.drop 10] = ([wFrame], pInit) :=
  frame_reconstruction_chunking wFrameBytes wFrame
    [wFrameBytes.take 10, wFrameBytes.drop 10] (by decide) (by decide)

/-! ## Connection and pool (`langserv.py`)

Embedding of `LangServ` and `LangServPool` from `src/langserv/langserv.py`.
Socket handles are `Nat`; the selectors `LoopContext` is a `Registrar`
mapping registered handles to interest masks; `recv`/`send`/`accept` results
are inputs to the event functions; every registrar and socket operation is
recorded in an effect trace.  The stdlib/sibling collaborators invoked by
`handle_complete_msg` (`json.loads`, `util.SymbolKind`,
`speakify.get_pronunciations`) are abstract parameters bundled in
`Externals`. -/

/-- Value of `selectors.EVENT_READ`. -/
def EVENT_READ : Nat := 1

/-- Value of `selectors.EVENT_WRITE`. -/
def EVENT_WRITE : Nat := 2

/-- The selectors registrar: registered handles with their interest masks. -/
structure Registrar where
  regs : List (Nat × Nat)
deriving DecidableEq

/-- Register a handle for an interest mask (`ctx.register`). -/
def Registrar.register (r : Registrar) (h m : Nat) : Registrar :=
  ⟨aset r.regs h m⟩

/-- Change a registered handle's interest mask (`ctx.modify`). -/
def Registrar.modify (r : Registrar) (h m : Nat) : Registrar :=
  ⟨r.regs.map (fun p => if p.1 = h then (h, m) else p)⟩

/-- Unregister a handle (`ctx.unregister`). -/
def Registrar.unregister (r : Registrar) (h : Nat) : Registrar :=
  ⟨aerase r.regs h⟩

/-- Observable side effects of connection and pool operations. -/
inductive Effect where
  | register : Nat → Nat → Effect
  | modify : Nat → Nat → Effect
  | unregister : Nat → Effect
  | sockClose : Nat → Effect
  | recvE : Nat → Effect
  | sendE : Nat → Nat → Effect
  | acceptE : Nat → Effect
deriving DecidableEq

/-- One item of a decoded `documentSymbol` result: `item["name"]` and
`item["kind"]`. -/
structure Item where
  name : Bytes
  kind : Nat
deriving DecidableEq

/-- Shape of a decoded JSON body as accessed by `handle_complete_msg`:
only `parsed["result"]` is read; `none` models a missing key. -/
structure Parsed where
  result : Option (List Item)
deriving DecidableEq

/-- The document-symbol list published via `ctx.lists`. -/
abbrev Docsyms := List (Bytes × Bytes)

/-- External collaborators of `handle_complete_msg`: `json.loads` (`none` is
a raised decode error), the `util.SymbolKind` constructor (`false` is a
raised `ValueError`), and `speakify.get_pronunciations`. -/
structure Externals where
  decode : Bytes → Option Parsed
  symKind : Nat → Bool
  pron : Bytes → List (Bytes × Bytes)

/-- Build the fresh `syms` dict of the `documentSymbol` branch; `none`
models an exception escaping mid-loop. -/
def buildSyms (ext : Externals) (items : List Item) : Option Docsyms :=
  items.foldlM
    (fun syms it =>
      if ext.symKind it.kind then
        some ((ext.pron it.name).foldl (fun m p => aset m p.1 p.2) syms)
      else none)
    ([] : Docsyms)

/-- Frame handler `LangServ.handle_complete_msg`: decode the body as JSON
(an undecodable body raises), and when the `Type` header is exactly
`documentSymbol`, replace the published document-symbol list with the syms
built from `parsed["result"]`; `none` models an escaping exception. -/
def handle_complete_msg (ext : Externals) (ds : Docsyms)
    (content body : Bytes) (hs : HMap) : Option Docsyms :=
  match ext.decode body with
  | none => none
  | some parsed =>
    if aget hs (strB "Type") = some (strB "documentSymbol") then
      match parsed.result with
      | none => none
      | some items =>
        match buildSyms ext items with
        | none => none
        | some syms => some syms
    else some ds

/-- Per-connection state of a `LangServ` object. -/
structure LangServ where
  conn : Nat
  closed : Bool
  send_buf : Bytes
  parser : PState
deriving DecidableEq

/-- Interest mask `LangServ._event_mask`: READ plus WRITE while the
outbound buffer is non-empty. -/
def LangServ._event_mask (ls : LangServ) : Nat :=
  if ls.send_buf ≠ [] then EVENT_READ.lor EVENT_WRITE else EVENT_READ

/-- Constructor `LangServ.__init__`: fresh open connection with empty
outbound buffer and parser, registered for its initial interest mask. -/
def LangServ.construct (conn : Nat) (reg : Registrar) :
    LangServ × Registrar × List Effect :=
  let ls : LangServ := ⟨conn, false, [], pInit⟩
  (ls, reg.register conn ls._event_mask, [Effect.register conn ls._event_mask])

/-- Method `LangServ.close`: on the first call, set the closed flag,
unregister and close the socket; later calls are no-ops. -/
def LangServ.close (ls : LangServ) (reg : Registrar) :
    LangServ × Registrar × List Effect :=
  if ls.closed then (ls, reg, [])
  else ({ ls with closed := true }, reg.unregister ls.conn,
        [Effect.unregister ls.conn, Effect.sockClose ls.conn])

/-- Method `LangServ.queue_send`: append to the outbound buffer and push the
recomputed interest mask. -/
def LangServ.queue_send (ls : LangServ) (reg : Registrar) (msg : Bytes) :
    LangServ × Registrar × List Effect :=
  let ls2 : LangServ := { ls with send_buf := ls.send_buf ++ msg }
  (ls2, reg.modify ls.conn ls2._event_mask, [Effect.modify ls.conn ls2._event_mask])

/-- Run the frame handler over each frame completed by one `feed` call.
Modelled from the spec: a handler failure (a decode failure for that one
frame) is confined to that frame, and parsing and handling of subsequent
frames continues. -/
def applyFrames (ext : Externals) (ds : Docsyms) (frames : List Frame) : Docsyms :=
  frames.foldl
    (fun d f =>
      match handle_complete_msg ext d f.content f.body f.headers with
      | some d2 => d2
      | none => d)
    ds

/-- Result of a connection event dispatch. -/
structure EvRes where
  ls : LangServ
  reg : Registrar
  ds : Docsyms
  effects : List Effect
deriving DecidableEq

/-- Write half of `LangServ.event`: on write readiness send the outbound
buffer; a zero-byte send closes the connection, otherwise the sent prefix is
dropped and the recomputed interest mask is pushed. -/
def writeBranch (ls : LangServ) (reg : Registrar) (ds : Docsyms)
    (mask sendResult : Nat) (eff0 : List Effect) : EvRes :=
  if mask.land EVENT_WRITE ≠ 0 then
    if sendResult = 0 then
      match ls.close reg with
      | (ls2, reg2, eff) =>
        ⟨ls2, reg2, ds, eff0 ++ Effect.sendE ls.conn sendResult :: eff⟩
    else
      let ls2 : LangServ := { ls with send_buf := ls.send_buf.drop sendResult }
      ⟨ls2, reg.modify ls.conn ls2._event_mask, ds,
       eff0 ++ [Effect.sendE ls.conn sendResult,
                Effect.modify ls.conn ls2._event_mask]⟩
  else ⟨ls, reg, ds, eff0⟩

/-- Method `LangServ.event`: on read readiness receive once (`recvData` is
what `recv(4096)` returned); zero bytes mean a broken connection, closed
immediately with no further action; otherwise the bytes are fed to the
parser and completed frames are handled.  Then the write half runs. -/
def LangServ.event (ext : Externals) (ls : LangServ) (reg : Registrar)
    (ds : Docsyms) (mask : Nat) (recvData : Bytes) (sendResult : Nat) : EvRes :=
  if mask.land EVENT_READ ≠ 0 then
    if recvData = [] then
      match ls.close reg with
      | (ls2, reg2, eff) => ⟨ls2, reg2, ds, Effect.recvE ls.conn :: eff⟩
    else
      match feed ls.parser recvData with
      | (frames, p2) =>
        writeBranch { ls with parser := p2 } reg (applyFrames ext ds frames)
          mask sendResult [Effect.recvE ls.conn]
  else writeBranch ls reg ds mask sendResult []

/-- Pool state: the listening socket, the `lang_servs` handle-to-connection
mapping, the registrar, and the published document-symbol list. -/
structure Sys where
  listener : Nat
  lang_servs : List (Nat × LangServ)
  reg : Registrar
  docsyms : Docsyms
deriving DecidableEq

/-- Exceptions that can escape `LangServPool.event`. -/
inductive PoolErr where
  | wouldBlock : PoolErr
  | keyError : PoolErr
deriving DecidableEq

/-- Result of a pool event dispatch: post-state, escaped exception if any,
and the effect trace. -/
structure PoolRes where
  sys : Sys
  err : Option PoolErr
  effects : List Effect
deriving DecidableEq

/-- Method `LangServPool.handle_conn`: `accept()` exactly one pending
connection (`pending`); with none pending the non-blocking accept raises
(`BlockingIOError`), which is not caught; otherwise a `LangServ` is
constructed (registering itself) and recorded in the mapping. -/
def Sys.handle_conn (s : Sys) (pending : Option Nat) : PoolRes :=
  match pending with
  | none => ⟨s, some PoolErr.wouldBlock, []⟩
  | some c =>
    match LangServ.construct c s.reg with
    | (ls, reg2, eff) =>
      ⟨{ s with reg := reg2, lang_servs := aset s.lang_servs c ls }, none,
       Effect.acceptE c :: eff⟩

/-- Method `LangServPool.event`: dispatch to `handle_conn` for the listening
socket, otherwise look up the owning connection (a missing key raises
`KeyError`), forward the event, and drop the mapping entry if the
connection reports closed. -/
def Sys.poolEvent (ext : Externals) (s : Sys) (h mask : Nat)
    (pending : Option Nat) (recvData : Bytes) (sendResult : Nat) : PoolRes :=
  if h = s.listener then s.handle_conn pending
  else
    match aget s.lang_servs h with
    | none => ⟨s, some PoolErr.keyError, []⟩
    | some ls =>
      match LangServ.event ext ls s.reg s.docsyms mask recvData sendResult with
      | r =>
        ⟨{ s with
            lang_servs :=
              if r.ls.closed then aerase s.lang_servs h
              else aset s.lang_servs h r.ls,
            reg := r.reg, docsyms := r.ds }, none, r.effects⟩

/-- Method `LangServPool.startup`: register the listening socket for READ. -/
def Sys.startup (s : Sys) : Sys × List Effect :=
  ({ s with reg := s.reg.register s.listener EVENT_READ },
   [Effect.register s.listener EVENT_READ])

/-- Close every connection of the mapping in order (`for ls in
self.lang_servs.values(): ls.close()`), keeping the mapping entries. -/
def closeAll : List (Nat × LangServ) → Registrar →
    List (Nat × LangServ) × Registrar × List Effect
  | [], reg => ([], reg, [])
  | (h, ls) :: rest, reg =>
    match ls.close reg with
    | (ls2, reg2, eff) =>
      match closeAll rest reg2 with
      | (rest2, reg3, eff2) => ((h, ls2) :: rest2, reg3, eff ++ eff2)

/-- Method `LangServPool.shutdown`: unregister and close the listening
socket, then close every connection (the mapping is not cleared). -/
def Sys.shutdown (s : Sys) : Sys × List Effect :=
  match closeAll s.lang_servs (s.reg.unregister s.listener) with
  | (servs2, reg2, eff2) =>
    ({ s with reg := reg2, lang_servs := servs2 },
     Effect.unregister s.listener :: Effect.sockClose s.listener :: eff2)

/-! ## Registrar lookup lemmas -/

theorem aget_map_update :
    ∀ (l : List (Nat × Nat)) (k m : Nat), (aget l k).isSome = true →
      aget (l.map (fun p => if p.1 = k then (k, m) else p)) k = some m := by
  intro l
  induction l with
  | nil => intro k m hk; simp [aget] at hk
  | cons p rest ih =>
    intro k m hk
    cases p with
    | mk k1 v1 =>
      simp only [List.map]
      dsimp only
      by_cases h1 : k1 = k
      · rw [if_pos h1]
        simp [aget]
      · rw [if_neg h1]
        rw [aget, if_neg h1] at hk
        rw [aget, if_neg h1]
        exact ih k m hk

theorem aget_map_update_ne :
    ∀ (l : List (Nat × Nat)) (k m k2 : Nat), k2 ≠ k →
      aget (l.map (fun p => if p.1 = k then (k, m) else p)) k2 = aget l k2 := by
  intro l
  induction l with
  | nil => intro k m k2 hne; rfl
  | cons p rest ih =>
    intro k m k2 hne
    cases p with
    | mk k1 v1 =>
      simp only [List.map]
      dsimp only
      by_cases h1 : k1 = k
      · have h1ne2 : ¬ k1 = k2 := fun he => hne (he.symm.trans h1)
        have h1ne : ¬ k = k2 := fun he => hne he.symm
        rw [if_pos h1]
        rw [aget, if_neg h1ne, aget, if_neg h1ne2]
        exact ih k m k2 hne
      · rw [if_neg h1]
        rw [aget, aget]
        by_cases h2 : k1 = k2
        · rw [if_pos h2, if_pos h2]
        · rw [if_neg h2, if_neg h2]
          exact ih k m k2 hne

/-! ## Concrete states used by instantiations -/

/-- Trivial externals: every JSON body fails to decode. -/
def extTriv : Externals := ⟨fun _ => none, fun _ => false, fun _ => []⟩

/-- Pool state right after `__init__` plus `startup`: listening socket is
handle 0, registered for READ, no connections. -/
def sysStart : Sys := ⟨0, [], ⟨[(0, EVENT_READ)]⟩, []⟩

/-- Pool state after accepting one peer connection on handle 5. -/
def sysOne : Sys :=
  (Sys.poolEvent extTriv sysStart 0 EVENT_READ (some 5) [] 0).sys

/-! ## C1 — accept with no pending connection -/

/-- C1 counterexample: dispatching a readiness event on the listening socket
when no peer connection is pending makes the uncaught non-blocking
`accept()` raise `BlockingIOError`: an error escapes the event call,
contrary to the claim that this is a benign no-op. -/
theorem accept_no_pending_raises :
    (Sys.poolEvent extTriv sysStart 0 EVENT_READ none [] 0).err
      = some PoolErr.wouldBlock := rfl

/-- C1 (amended): for every Pool dispatch of a readiness event on the
listening socket when no peer connection is pending, the accept attempt
raises a would-block error that escapes the event call; the Pool's state
(connection mapping, listening-socket registration, document-symbol list) is
unchanged and no effects are performed. -/
theorem accept_no_pending_escapes (ext : Externals) (s : Sys) (mask : Nat)
    (recvData : Bytes) (sendResult : Nat) :
    Sys.poolEvent ext s s.listener mask none recvData sendResult
      = ⟨s, some PoolErr.wouldBlock, []⟩ := by
  unfold Sys.poolEvent
  rw [if_pos rfl]
  rfl

/-! ## C3 — shutdown ordering -/

theorem closeAll_spec :
    ∀ (l : List (Nat × LangServ)) (reg : Registrar),
      (closeAll l reg).2.2
          = (l.filter (fun p => !p.2.closed)).flatMap
              (fun p => [Effect.unregister p.2.conn, Effect.sockClose p.2.conn])
      ∧ (∀ h ls, aget (closeAll l reg).1 h = some ls → ls.closed = true) := by
  intro l
  induction l with
  | nil =>
    intro reg
    refine ⟨rfl, ?_⟩
    intro h ls hget
    simp [closeAll, aget] at hget
  | cons p rest ih =>
    intro reg
    cases p with
    | mk h1 ls1 =>
      by_cases hc : ls1.closed
      · have hcl : ls1.close reg = (ls1, reg, []) := by
          unfold LangServ.close
          rw [if_pos hc]
        constructor
        · simp only [closeAll, hcl, List.filter]
          rcases hrec : closeAll rest reg with ⟨rest2, reg3, eff2⟩
          have := (ih reg).1
          rw [hrec] at this
          simp only [hc, Bool.not_true]
          simpa using this
        · intro h ls hget
          simp only [closeAll, hcl] at hget
          rcases hrec : closeAll rest reg with ⟨rest2, reg3, eff2⟩
          rw [hrec] at hget
          dsimp only at hget
          rw [aget] at hget
          by_cases hh : h1 = h
          · rw [if_pos hh] at hget
            cases hget
            exact hc
          · rw [if_neg hh] at hget
            have := (ih reg).2 h ls
            rw [hrec] at this
            exact this hget
      · have hc2 : ls1.closed = false := by
          cases hb : ls1.closed
          · rfl
          · exact absurd hb hc
        have hcl : ls1.close reg
            = ({ ls1 with closed := true }, reg.unregister ls1.conn,
               [Effect.unregister ls1.conn, Effect.sockClose ls1.conn]) := by
          unfold LangServ.close
          rw [if_neg hc]
        constructor
        · simp only [closeAll, hcl, List.filter]
          rcases hrec : closeAll rest (reg.unregister ls1.conn) with ⟨rest2, reg3, eff2⟩
          have := (ih (reg.unregister ls1.conn)).1
          rw [hrec] at this
          simp only [hc2, Bool.not_false]
          simpa using this
        · intro h ls hget
          simp only [closeAll, hcl] at hget
          rcases hrec : closeAll rest (reg.unregister ls1.conn) with ⟨rest2, reg3, eff2⟩
          rw [hrec] at hget
          dsimp only at hget
          rw [aget] at hget
          by_cases hh : h1 = h
          · rw [if_pos hh] at hget
            cases hget
            rfl
          · rw [if_neg hh] at hget
            have := (ih (reg.unregister ls1.conn)).2 h ls
            rw [hrec] at this
            exact this hget

/-- C3 counterexample: on a pool with one live connection (handle 5),
`shutdown()` unregisters and closes the listening socket (handle 0) strictly
before closing the live Connection — the whole effect trace, and the
ordering fact, contradict "first closes every live Connection and only then
unregisters and closes the listening socket". -/
theorem shutdown_listener_first_cex :
    (Sys.shutdown sysOne).2
        = [Effect.unregister 0, Effect.sockClose 0,
           Effect.unregister 5, Effect.sockClose 5]
    ∧ (Sys.shutdown sysOne).2.indexOf (Effect.unregister 0)
        < (Sys.shutdown sysOne).2.indexOf (Effect.sockClose 5) := by
  constructor
  · rfl
  · decide

/-- C3 (amended): `shutdown()` first unregisters and closes the LISTENING
SOCKET, and only then closes every live Connection (skipping already-closed
ones); afterwards every mapped Connection is closed, and with zero
connections the trace is exactly the two listener effects, so the call
succeeds on an empty pool. -/
theorem shutdown_order (s : Sys) :
    (Sys.shutdown s).2
        = Effect.unregister s.listener :: Effect.sockClose s.listener ::
            (s.lang_servs.filter (fun p => !p.2.closed)).flatMap
              (fun p => [Effect.unregister p.2.conn, Effect.sockClose p.2.conn])
    ∧ (s.lang_servs = [] →
        (Sys.shutdown s).2
          = [Effect.unregister s.listener, Effect.sockClose s.listener])
    ∧ (∀ h ls, aget (Sys.shutdown s).1.lang_servs h = some ls →
        ls.closed = true) := by
  have hspec := closeAll_spec s.lang_servs (s.reg.unregister s.listener)
  constructor
  · unfold Sys.shutdown
    rcases hrec : closeAll s.lang_servs (s.reg.unregister s.listener)
      with ⟨servs2, reg2, eff2⟩
    rw [hrec] at hspec
    dsimp only at hspec
    dsimp only
    rw [hspec.1]
  constructor
  · intro hemp
    unfold Sys.shutdown
    rcases hrec : closeAll s.lang_servs (s.reg.unregister s.listener)
      with ⟨servs2, reg2, eff2⟩
    rw [hrec] at hspec
    dsimp only at hspec
    dsimp only
    rw [hspec.1, hemp]
    rfl
  · intro h ls hget
    unfold Sys.shutdown at hget
    rcases hrec : closeAll s.lang_servs (s.reg.unregister s.listener)
      with ⟨servs2, reg2, eff2⟩
    rw [hrec] at hspec hget
    dsimp only at hspec hget
    exact hspec.2 h ls hget

/-- Witness for C3 (amended), at the one-connection pool: the concrete trace
and the closedness of the remaining mapped connection. -/
theorem shutdown_order_inst :
    (Sys.shutdown sysOne).2
        = [Effect.unregister 0, Effect.sockClose 0,
           Effect.unregister 5, Effect.sockClose 5]
    ∧ ((Sys.shutdown sysOne).1.lang_servs = []
        ∨ ∀ ls, aget (Sys.shutdown sysOne).1.lang_servs 5 = some ls →
            ls.closed = true) := by
  refine ⟨?_, Or.inr (fun ls hget => (shutdown_order sysOne).2.2 5 ls hget)⟩
  have h1 := (shutdown_order sysOne).1
  rw [h1]
  rfl

/-! ## C6 — close() idempotence -/

/-- Repeated invocation of `LangServ.close`, accumulating the trace. -/
def closeIter : Nat → LangServ → Registrar → LangServ × Registrar × List Effect
  | 0, ls, reg => (ls, reg, [])
  | n + 1, ls, reg =>
    match ls.close reg with
    | (ls1, r1, e1) =>
      match closeIter n ls1 r1 with
      | (ls2, r2, e2) => (ls2, r2, e1 ++ e2)

theorem closeIter_closed :
    ∀ (n : Nat) (ls : LangServ) (reg : Registrar), ls.closed = true →
      closeIter n ls reg = (ls, reg, []) := by
  intro n
  induction n with
  | zero => intro ls reg hc; rfl
  | succ n ih =>
    intro ls reg hc
    have hcl : ls.close reg = (ls, reg, []) := by
      unfold LangServ.close
      rw [if_pos hc]
    rw [closeIter, hcl]
    dsimp only
    rw [ih ls reg hc]
    simp

/-- C6: `close()` is idempotent — for any number `n ≥ 1` of `close()` calls
on an open Connection, the closed flag is set after the first call and
stays set, and the cumulative trace unregisters the Connection exactly once
and closes its socket exactly once (it is exactly one unregister effect
followed by one socket-close effect). -/
theorem close_idempotent (n : Nat) (ls : LangServ) (reg : Registrar)
    (hopen : ls.closed = false) (hn : 1 ≤ n) :
    closeIter n ls reg
      = ({ ls with closed := true }, reg.unregister ls.conn,
         [Effect.unregister ls.conn, Effect.sockClose ls.conn]) := by
  cases n with
  | zero => omega
  | succ n =>
    have hcl : ls.close reg
        = ({ ls with closed := true }, reg.unregister ls.conn,
           [Effect.unregister ls.conn, Effect.sockClose ls.conn]) := by
      unfold LangServ.close
      rw [hopen]
      rfl
    rw [closeIter, hcl]
    dsimp only
    rw [closeIter_closed n { ls with closed := true } (reg.unregister ls.conn) rfl]
    simp

/-- Witness for C6: three consecutive closes of an open connection on
handle 7 unregister and close it exactly once. -/
theorem close_idempotent_inst :
    closeIter 3 ⟨7, false, [], pInit⟩ ⟨[(7, EVENT_READ)]⟩
      = (⟨7, true, [], pInit⟩, ⟨[]⟩,
         [Effect.unregister 7, Effect.sockClose 7]) :=
  close_idempotent 3 ⟨7, false, [], pInit⟩ ⟨[(7, EVENT_READ)]⟩ rfl (by omega)

/-! ## C9 — the handler mutates the docsym list only for Type documentSymbol -/

/-- C9: for every completed frame delivered to `handle_complete_msg`, if the
headers do not map "Type" to exactly "documentSymbol" (any other value, or
no Type header at all), then every non-raising outcome leaves the published
document-symbol list unchanged; the list is therefore mutated only for
frames whose Type is documentSymbol. -/
theorem docsym_requires_type (ext : Externals) (ds ds2 : Docsyms)
    (content body : Bytes) (hs : HMap)
    (hty : aget hs (strB "Type") ≠ some (strB "documentSymbol"))
    (hok : handle_complete_msg ext ds content body hs = some ds2) :
    ds2 = ds := by
  unfold handle_complete_msg at hok
  cases hd : ext.decode body with
  | none => rw [hd] at hok; simp at hok
  | some parsed =>
    rw [hd] at hok
    dsimp only at hok
    rw [if_neg hty] at hok
    exact (Option.some.inj hok).symm

/-- Externals whose JSON decoding always succeeds with an empty result. -/
def extOkEmpty : Externals := ⟨fun _ => some ⟨some []⟩, fun _ => true, fun _ => []⟩

/-- Example document-symbol list. -/
def dsA : Docsyms := [(strB "alpha", strB "beta")]

/-- Witness for C9: a frame with no Type header is handled without touching
the document-symbol list. -/
theorem docsym_requires_type_inst :
    aget ([] : HMap) (strB "Type") ≠ some (strB "documentSymbol")
    ∧ handle_complete_msg extOkEmpty dsA [] (strB "x") [] = some dsA
    ∧ dsA = dsA :=
  ⟨by decide, by decide,
   docsym_requires_type extOkEmpty dsA dsA [] (strB "x") [] (by decide) (by decide)⟩

/-! ## C10 — dispatch on an unknown handle -/

/-- C10: a pool dispatch whose handle is neither the listening socket nor a
current key of the handle-to-Connection mapping raises `KeyError` from the
mapping lookup (leaving the state unchanged and performing no effects)
rather than being a no-op. -/
theorem unknown_handle_keyerror (ext : Externals) (s : Sys) (h mask : Nat)
    (pending : Option Nat) (recvData : Bytes) (sendResult : Nat)
    (hL : h ≠ s.listener) (hmap : aget s.lang_servs h = none) :
    Sys.poolEvent ext s h mask pending recvData sendResult
      = ⟨s, some PoolErr.keyError, []⟩ := by
  unfold Sys.poolEvent
  rw [if_neg hL, hmap]

/-- Witness for C10: dispatching handle 9 on the freshly started pool raises
`KeyError`. -/
theorem unknown_handle_keyerror_inst :
    Sys.poolEvent extTriv sysStart 9 EVENT_READ none [] 0
      = ⟨sysStart, some PoolErr.keyError, []⟩ :=
  unknown_handle_keyerror extTriv sysStart 9 EVENT_READ none [] 0 (by decide) rfl

/-! ## C2 — decode failures are confined to one frame -/

/-- C2: for every completed frame whose body fails downstream decoding, the
failure is confined to that frame.  For a read-ready event delivering bytes,
and for EVERY choice of external decoder (including ones that fail on every
body): no error escapes the event (the dispatch is total), the Connection is
not closed, its registrar entry is untouched, the parser advances exactly as
the feed of the received bytes dictates — so subsequent frames keep being
parsed — and the document-symbol updates are applied per frame with failing
frames skipped. -/
theorem decode_failure_confined (ext : Externals) (ls : LangServ)
    (reg : Registrar) (ds : Docsyms) (recvData : Bytes) (sendResult : Nat)
    (hrd : recvData ≠ []) :
    (LangServ.event ext ls reg ds EVENT_READ recvData sendResult).ls
        = { ls with parser := (feed ls.parser recvData).2 }
    ∧ (LangServ.event ext ls reg ds EVENT_READ recvData sendResult).ls.closed
        = ls.closed
    ∧ (LangServ.event ext ls reg ds EVENT_READ recvData sendResult).reg = reg
    ∧ (LangServ.event ext ls reg ds EVENT_READ recvData sendResult).ds
        = applyFrames ext ds (feed ls.parser recvData).1 := by
  unfold LangServ.event
  rw [if_pos (by decide : EVENT_READ.land EVENT_READ ≠ 0)]
  rw [if_neg hrd]
  rcases hfd : feed ls.parser recvData with ⟨frames, p2⟩
  dsimp only
  unfold writeBranch
  rw [if_neg (by decide : ¬ EVENT_READ.land EVENT_WRITE ≠ 0)]
  exact ⟨rfl, rfl, rfl, rfl⟩

/-- Witness for C2: feeding a complete frame whose body the (always-failing)
decoder rejects leaves the connection open. -/
theorem decode_failure_confined_inst :
    (LangServ.event extTriv ⟨3, false, [], pInit⟩ ⟨[(3, EVENT_READ)]⟩ []
        EVENT_READ wFrameBytes 0).ls.closed = false :=
  (decode_failure_confined extTriv ⟨3, false, [], pInit⟩ ⟨[(3, EVENT_READ)]⟩ []
      wFrameBytes 0 (by decide)).2.1

/-! ## C4 — interest-mask recomputation -/

theorem event_mask_spec (ls : LangServ) :
    (LangServ._event_mask ls).land EVENT_READ ≠ 0
    ∧ ((LangServ._event_mask ls).land EVENT_WRITE ≠ 0 ↔ ls.send_buf ≠ []) := by
  by_cases hb : ls.send_buf = []
  · unfold LangServ._event_mask
    rw [if_neg (by simp [hb])]
    refine ⟨by decide, ?_⟩
    constructor
    · intro hcontra
      exact absurd (by decide : EVENT_READ.land EVENT_WRITE = 0) hcontra
    · intro hne
      exact absurd hb hne
  · unfold LangServ._event_mask
    rw [if_pos hb]
    refine ⟨by decide, ?_⟩
    constructor
    · intro _
      exact hb
    · intro _
      decide

/-- C4: after `queue_send`, and after a successful partial send during a
write-ready event, the interest mask registered for the connection requests
READ, and requests WRITE if and only if the outbound buffer is non-empty. -/
theorem interest_mask_rule :
    (∀ (ls : LangServ) (reg : Registrar) (msg : Bytes),
       (aget reg.regs ls.conn).isSome = true →
       ∃ m, aget ((LangServ.queue_send ls reg msg).2.1).regs ls.conn = some m
         ∧ m.land EVENT_READ ≠ 0
         ∧ (m.land EVENT_WRITE ≠ 0
             ↔ (LangServ.queue_send ls reg msg).1.send_buf ≠ []))
    ∧ (∀ (ext : Externals) (ls : LangServ) (reg : Registrar) (ds : Docsyms)
         (recvData : Bytes) (sendResult : Nat),
       sendResult ≠ 0 →
       (aget reg.regs ls.conn).isSome = true →
       ∃ m, aget ((LangServ.event ext ls reg ds EVENT_WRITE recvData
                     sendResult).reg).regs ls.conn = some m
         ∧ m.land EVENT_READ ≠ 0
         ∧ (m.land EVENT_WRITE ≠ 0
             ↔ (LangServ.event ext ls reg ds EVENT_WRITE recvData
                  sendResult).ls.send_buf ≠ [])) := by
  constructor
  · intro ls reg msg hreg
    unfold LangServ.queue_send
    dsimp only
    refine ⟨LangServ._event_mask { ls with send_buf := ls.send_buf ++ msg }, ?_, ?_, ?_⟩
    · exact aget_map_update reg.regs ls.conn _ hreg
    · exact (event_mask_spec _).1
    · exact (event_mask_spec _).2
  · intro ext ls reg ds recvData sendResult hsr hreg
    unfold LangServ.event
    rw [if_neg (by decide : ¬ EVENT_WRITE.land EVENT_READ ≠ 0)]
    unfold writeBranch
    rw [if_pos (by decide : EVENT_WRITE.land EVENT_WRITE ≠ 0)]
    rw [if_neg hsr]
    dsimp only
    refine ⟨LangServ._event_mask { ls with send_buf := ls.send_buf.drop sendResult },
            ?_, ?_, ?_⟩
    · exact aget_map_update reg.regs ls.conn _ hreg
    · exact (event_mask_spec _).1
    · exact (event_mask_spec _).2

/-- Witness for C4: on a registered connection with an empty outbound
buffer, queueing two bytes yields a READ+WRITE mask, and a write-ready event
that sends one byte leaves a non-empty buffer and a READ+WRITE mask. -/
theorem interest_mask_rule_inst :
    (∃ m, aget ((LangServ.queue_send ⟨3, false, [], pInit⟩ ⟨[(3, EVENT_READ)]⟩
                   (strB "ab")).2.1).regs 3 = some m
       ∧ m.land EVENT_READ ≠ 0
       ∧ (m.land EVENT_WRITE ≠ 0
           ↔ (LangServ.queue_send ⟨3, false, [], pInit⟩ ⟨[(3, EVENT_READ)]⟩
                (strB "ab")).1.send_buf ≠ []))
    ∧ (∃ m, aget ((LangServ.event extTriv ⟨3, false, strB "ab", pInit⟩
                     ⟨[(3, 3)]⟩ [] EVENT_WRITE [] 1).reg).regs 3 = some m
       ∧ m.land EVENT_READ ≠ 0
       ∧ (m.land EVENT_WRITE ≠ 0
           ↔ (LangServ.event extTriv ⟨3, false, strB "ab", pInit⟩
                ⟨[(3, 3)]⟩ [] EVENT_WRITE [] 1).ls.send_buf ≠ [])) :=
  ⟨interest_mask_rule.1 ⟨3, false, [], pInit⟩ ⟨[(3, EVENT_READ)]⟩ (strB "ab")
     (by decide),
   interest_mask_rule.2 extTriv ⟨3, false, strB "ab", pInit⟩ ⟨[(3, 3)]⟩ []
     [] 1 (by decide) (by decide)⟩

/-! ## C5 — zero-byte transfers close only the affected connection -/

/-- C5: a zero-byte receive (even with write readiness also signalled and a
send pending) or a zero-byte send result closes only the affected
Connection: the dispatch completes without error, returns without any
further action (no send is attempted after a zero-byte receive — the effect
traces are exactly receive-or-send, unregister, socket close), the only
pool-level effect is removing that Connection from the mapping and the
registrar, and every other Connection's mapping entry and the listening
socket's registration are unchanged. -/
theorem zero_byte_closes_only (ext : Externals) (s : Sys) (h : Nat)
    (ls : LangServ) (sendResult : Nat) (rd : Bytes)
    (hget : aget s.lang_servs h = some ls) (hconn : ls.conn = h)
    (hopen : ls.closed = false) (hL : h ≠ s.listener) :
    (Sys.poolEvent ext s h (EVENT_READ.lor EVENT_WRITE) none [] sendResult
       = ⟨⟨s.listener, aerase s.lang_servs h, s.reg.unregister h, s.docsyms⟩,
          none, [Effect.recvE h, Effect.unregister h, Effect.sockClose h]⟩)
    ∧ (Sys.poolEvent ext s h EVENT_WRITE none rd 0
       = ⟨⟨s.listener, aerase s.lang_servs h, s.reg.unregister h, s.docsyms⟩,
          none, [Effect.sendE h 0, Effect.unregister h, Effect.sockClose h]⟩)
    ∧ (∀ h2, h2 ≠ h → aget (aerase s.lang_servs h) h2 = aget s.lang_servs h2)
    ∧ aget (s.reg.unregister h).regs s.listener
        = aget s.reg.regs s.listener := by
  have hcl : ls.close s.reg
      = ({ ls with closed := true }, s.reg.unregister ls.conn,
         [Effect.unregister ls.conn, Effect.sockClose ls.conn]) := by
    unfold LangServ.close
    rw [hopen]
    rfl
  refine ⟨?_, ?_, ?_, ?_⟩
  · unfold Sys.poolEvent
    rw [if_neg hL, hget]
    dsimp only
    unfold LangServ.event
    rw [if_pos (by decide : (EVENT_READ.lor EVENT_WRITE).land EVENT_READ ≠ 0)]
    rw [if_pos rfl, hcl]
    dsimp only
    rw [if_pos (rfl : ({ ls with closed := true } : LangServ).closed = true)]
    rw [hconn]
  · unfold Sys.poolEvent
    rw [if_neg hL, hget]
    dsimp only
    unfold LangServ.event
    rw [if_neg (by decide : ¬ EVENT_WRITE.land EVENT_READ ≠ 0)]
    unfold writeBranch
    rw [if_pos (by decide : EVENT_WRITE.land EVENT_WRITE ≠ 0)]
    rw [if_pos rfl, hcl]
    dsimp only
    rw [if_pos (rfl : ({ ls with closed := true } : LangServ).closed = true)]
    rw [hconn]
    rfl
  · intro h2 hne
    exact aget_aerase_ne s.lang_servs h h2 hne
  · exact aget_aerase_ne s.reg.regs h s.listener (fun he => hL he.symm)

/-- Witness for C5: on the one-connection pool, a zero-byte receive on
handle 5 removes exactly that connection; the listener's registration
survives. -/
theorem zero_byte_closes_only_inst :
    Sys.poolEvent extTriv sysOne 5 (EVENT_READ.lor EVENT_WRITE) none [] 7
      = ⟨⟨0, [], ⟨[(0, EVENT_READ)]⟩, []⟩, none,
         [Effect.recvE 5, Effect.unregister 5, Effect.sockClose 5]⟩ :=
  (zero_byte_closes_only extTriv sysOne 5 ⟨5, false, [], pInit⟩ 7 []
     (by decide) rfl rfl (by decide)).1

/-! ## C7 — pool mapping invariant -/

/-- Write half: the owned handle is unchanged. -/
theorem writeBranch_conn (ls : LangServ) (reg : Registrar) (ds : Docsyms)
    (mask sr : Nat) (eff0 : List Effect) :
    (writeBranch ls reg ds mask sr eff0).ls.conn = ls.conn := by
  unfold writeBranch LangServ.close
  split_ifs <;> rfl

/-- Write half: no registrar entry other than the connection's own handle is
touched. -/
theorem writeBranch_reg_other (ls : LangServ) (reg : Registrar) (ds : Docsyms)
    (mask sr : Nat) (eff0 : List Effect) (h2 : Nat) (hne : h2 ≠ ls.conn) :
    aget (writeBranch ls reg ds mask sr eff0).reg.regs h2 = aget reg.regs h2 := by
  unfold writeBranch LangServ.close Registrar.unregister Registrar.modify
  split_ifs <;>
    first
      | rfl
      | exact aget_aerase_ne reg.regs ls.conn h2 hne
      | exact aget_map_update_ne reg.regs ls.conn _ h2 hne

/-- Write half: if the connection is still open afterwards, a previously
registered connection stays registered. -/
theorem writeBranch_reg_self (ls : LangServ) (reg : Registrar) (ds : Docsyms)
    (mask sr : Nat) (eff0 : List Effect)
    (hopen2 : (writeBranch ls reg ds mask sr eff0).ls.closed = false)
    (hreg : (aget reg.regs ls.conn).isSome = true) :
    (aget (writeBranch ls reg ds mask sr eff0).reg.regs ls.conn).isSome
      = true := by
  unfold writeBranch LangServ.close Registrar.unregister Registrar.modify
    at hopen2 ⊢
  split_ifs at hopen2 ⊢ <;>
    first
      | exact hreg
      | (rw [aget_map_update reg.regs ls.conn _ hreg]; rfl)

/-- Connection events never change the handle owned by the connection. -/
theorem event_conn (ext : Externals) (ls : LangServ) (reg : Registrar)
    (ds : Docsyms) (mask : Nat) (rd : Bytes) (sr : Nat) :
    (LangServ.event ext ls reg ds mask rd sr).ls.conn = ls.conn := by
  unfold LangServ.event
  rcases hfd : feed ls.parser rd with ⟨frames, p2⟩
  dsimp only
  by_cases h1 : mask.land EVENT_READ ≠ 0
  · rw [if_pos h1]
    by_cases h2 : rd = []
    · rw [if_pos h2]
      unfold LangServ.close
      split_ifs <;> rfl
    · rw [if_neg h2]
      exact writeBranch_conn _ _ _ _ _ _
  · rw [if_neg h1]
    exact writeBranch_conn _ _ _ _ _ _

/-- Connection events touch no registrar entry other than the connection's
own handle. -/
theorem event_reg_other (ext : Externals) (ls : LangServ) (reg : Registrar)
    (ds : Docsyms) (mask : Nat) (rd : Bytes) (sr : Nat) (h2 : Nat)
    (hne : h2 ≠ ls.conn) :
    aget (LangServ.event ext ls reg ds mask rd sr).reg.regs h2
      = aget reg.regs h2 := by
  unfold LangServ.event
  rcases hfd : feed ls.parser rd with ⟨frames, p2⟩
  dsimp only
  by_cases h1 : mask.land EVENT_READ ≠ 0
  · rw [if_pos h1]
    by_cases h2e : rd = []
    · rw [if_pos h2e]
      unfold LangServ.close Registrar.unregister
      split_ifs <;>
        first
          | rfl
          | exact aget_aerase_ne reg.regs ls.conn h2 hne
    · rw [if_neg h2e]
      exact writeBranch_reg_other _ _ _ _ _ _ h2 hne
  · rw [if_neg h1]
    exact writeBranch_reg_other _ _ _ _ _ _ h2 hne

/-- If a connection event leaves the connection open, a previously
registered connection stays registered. -/
theorem event_reg_self_open (ext : Externals) (ls : LangServ) (reg : Registrar)
    (ds : Docsyms) (mask : Nat) (rd : Bytes) (sr : Nat)
    (hopen2 : (LangServ.event ext ls reg ds mask rd sr).ls.closed = false)
    (hreg : (aget reg.regs ls.conn).isSome = true) :
    (aget (LangServ.event ext ls reg ds mask rd sr).reg.regs ls.conn).isSome
      = true := by
  unfold LangServ.event at hopen2 ⊢
  rcases hfd : feed ls.parser rd with ⟨frames, p2⟩
  rw [hfd] at hopen2
  dsimp only at hopen2 ⊢
  by_cases h1 : mask.land EVENT_READ ≠ 0
  · rw [if_pos h1] at hopen2 ⊢
    by_cases h2 : rd = []
    · rw [if_pos h2] at hopen2 ⊢
      unfold LangServ.close at hopen2 ⊢
      by_cases h3 : ls.closed = true
      · rw [if_pos h3] at hopen2 ⊢
        exact hreg
      · rw [if_neg h3] at hopen2
        dsimp only at hopen2
        exact absurd hopen2 (by decide)
    · rw [if_neg h2] at hopen2 ⊢
      exact writeBranch_reg_self _ _ _ _ _ _ hopen2 hreg
  · rw [if_neg h1] at hopen2 ⊢
    exact writeBranch_reg_self _ _ _ _ _ _ hopen2 hreg

/-- The pool mapping invariant: every key of `lang_servs` is registered with
the Registrar for some interest mask, its connection is open, and it is
keyed under its own handle. -/
def SysInv (s : Sys) : Prop :=
  ∀ h ls, aget s.lang_servs h = some ls →
    (aget s.reg.regs h).isSome = true ∧ ls.closed = false ∧ ls.conn = h

/-- Pool states reachable by `startup` followed by `event` dispatches;
`pending` handles delivered by `accept` are fresh operating-system file
descriptors (neither the listener nor a current mapping key). -/
inductive ReachNS (ext : Externals) : Sys → Prop where
  | start : ∀ (listener : Nat) (reg0 : Registrar) (ds : Docsyms),
      ReachNS ext ((Sys.startup ⟨listener, [], reg0, ds⟩).1)
  | evStep : ∀ (s : Sys) (h mask : Nat) (pending : Option Nat)
      (recvData : Bytes) (sendResult : Nat),
      ReachNS ext s →
      (∀ c, pending = some c →
        aget s.lang_servs c = none ∧ c ≠ s.listener) →
      ReachNS ext ((Sys.poolEvent ext s h mask pending recvData sendResult).sys)

/-- Pool states reachable by `startup`, `event` dispatches, and `shutdown`:
the operation set named by the claim. -/
inductive ReachFull (ext : Externals) : Sys → Prop where
  | start : ∀ (listener : Nat) (reg0 : Registrar) (ds : Docsyms),
      ReachFull ext ((Sys.startup ⟨listener, [], reg0, ds⟩).1)
  | evStep : ∀ (s : Sys) (h mask : Nat) (pending : Option Nat)
      (recvData : Bytes) (sendResult : Nat),
      ReachFull ext s →
      (∀ c, pending = some c →
        aget s.lang_servs c = none ∧ c ≠ s.listener) →
      ReachFull ext
        ((Sys.poolEvent ext s h mask pending recvData sendResult).sys)
  | shutStep : ∀ (s : Sys), ReachFull ext s →
      ReachFull ext ((Sys.shutdown s).1)

theorem poolEvent_preserves_inv (ext : Externals) (s : Sys) (h mask : Nat)
    (pending : Option Nat) (rd : Bytes) (sr : Nat) (hinv : SysInv s) :
    SysInv (Sys.poolEvent ext s h mask pending rd sr).sys := by
  unfold Sys.poolEvent
  by_cases hL : h = s.listener
  · rw [if_pos hL]
    unfold Sys.handle_conn
    cases pending with
    | none => exact hinv
    | some c =>
      unfold LangServ.construct
      dsimp only
      intro h2 ls2 hget
      dsimp only at hget
      by_cases hc : h2 = c
      · subst hc
        rw [aget_aset_self] at hget
        have hls2 : ls2 = ⟨h2, false, [], pInit⟩ := (Option.some.inj hget).symm
        subst hls2
        refine ⟨?_, rfl, rfl⟩
        dsimp only [Registrar.register]
        rw [aget_aset_self]
        rfl
      · rw [aget_aset_ne _ _ _ _ hc] at hget
        have hold := hinv h2 ls2 hget
        refine ⟨?_, hold.2.1, hold.2.2⟩
        dsimp only [Registrar.register]
        rw [aget_aset_ne _ _ _ _ hc]
        exact hold.1
  · rw [if_neg hL]
    cases hget0 : aget s.lang_servs h with
    | none => exact hinv
    | some ls =>
      have hls := hinv h ls hget0
      dsimp only
      intro h2 ls2 hget
      dsimp only at hget
      by_cases hcl : (LangServ.event ext ls s.reg s.docsyms mask rd sr).ls.closed
          = true
      · rw [if_pos hcl] at hget
        by_cases hh : h2 = h
        · subst hh
          rw [aget_aerase_self] at hget
          simp at hget
        · rw [aget_aerase_ne _ _ _ hh] at hget
          have hold := hinv h2 ls2 hget
          refine ⟨?_, hold.2.1, hold.2.2⟩
          rw [event_reg_other ext ls s.reg s.docsyms mask rd sr h2
            (fun he => hh (he.trans hls.2.2))]
          exact hold.1
      · rw [if_neg hcl] at hget
        have hclf : (LangServ.event ext ls s.reg s.docsyms mask rd sr).ls.closed
            = false := by
          cases hb : (LangServ.event ext ls s.reg s.docsyms mask rd sr).ls.closed
          · rfl
          · exact absurd hb hcl
        by_cases hh : h2 = h
        · subst hh
          rw [aget_aset_self] at hget
          have hls2 : ls2 = (LangServ.event ext ls s.reg s.docsyms mask rd sr).ls :=
            (Option.some.inj hget).symm
          subst hls2
          refine ⟨?_, hclf, ?_⟩
          · have hreg : (aget s.reg.regs ls.conn).isSome = true := by
              rw [hls.2.2]
              exact hls.1
            have := event_reg_self_open ext ls s.reg s.docsyms mask rd sr hclf hreg
            rw [hls.2.2] at this
            exact this
          · rw [event_conn]
            exact hls.2.2
        · rw [aget_aset_ne _ _ _ _ hh] at hget
          have hold := hinv h2 ls2 hget
          refine ⟨?_, hold.2.1, hold.2.2⟩
          rw [event_reg_other ext ls s.reg s.docsyms mask rd sr h2
            (fun he => hh (he.trans hls.2.2))]
          exact hold.1

theorem reach_inv (ext : Externals) : ∀ s, ReachNS ext s → SysInv s := by
  intro s hr
  induction hr with
  | start listener reg0 ds =>
    intro h2 ls2 hget
    simp [Sys.startup, aget] at hget
  | evStep s h mask pending rd sr hrs hfresh ih =>
    exact poolEvent_preserves_inv ext s h mask pending rd sr ih

theorem removal_only_closed (ext : Externals) (s : Sys) (h mask : Nat)
    (pending : Option Nat) (rd : Bytes) (sr : Nat) (h2 : Nat)
    (hbefore : (aget s.lang_servs h2).isSome = true)
    (hafter : aget (Sys.poolEvent ext s h mask pending rd sr).sys.lang_servs h2
        = none) :
    h2 = h ∧ ∃ ls, aget s.lang_servs h = some ls ∧
      (LangServ.event ext ls s.reg s.docsyms mask rd sr).ls.closed = true := by
  unfold Sys.poolEvent at hafter
  by_cases hL : h = s.listener
  · rw [if_pos hL] at hafter
    unfold Sys.handle_conn at hafter
    cases pending with
    | none =>
      dsimp only at hafter
      rw [hafter] at hbefore
      simp at hbefore
    | some c =>
      unfold LangServ.construct at hafter
      dsimp only at hafter
      by_cases hc : h2 = c
      · subst hc
        rw [aget_aset_self] at hafter
        simp at hafter
      · rw [aget_aset_ne _ _ _ _ hc] at hafter
        rw [hafter] at hbefore
        simp at hbefore
  · rw [if_neg hL] at hafter
    cases hget : aget s.lang_servs h with
    | none =>
      rw [hget] at hafter
      dsimp only at hafter
      rw [hafter] at hbefore
      simp at hbefore
    | some ls =>
      rw [hget] at hafter
      dsimp only at hafter
      by_cases hcl : (LangServ.event ext ls s.reg s.docsyms mask rd sr).ls.closed
          = true
      · rw [if_pos hcl] at hafter
        by_cases hh : h2 = h
        · exact ⟨hh, ls, rfl, hcl⟩
        · rw [aget_aerase_ne _ _ _ hh] at hafter
          rw [hafter] at hbefore
          simp at hbefore
      · rw [if_neg hcl] at hafter
        by_cases hh : h2 = h
        · subst hh
          rw [aget_aset_self] at hafter
          simp at hafter
        · rw [aget_aset_ne _ _ _ _ hh] at hafter
          rw [hafter] at hbefore
          simp at hbefore

/-- C7 (amended): in every pool state reachable under `startup` and `event`
dispatches — but not `shutdown` — every key of the handle-to-Connection
mapping is currently registered with the Registrar for some interest mask
(and is open and keyed under its own handle); and an event dispatch removes
a mapping entry only for the dispatched handle and only when its Connection
reported closed by the time of removal.  After `shutdown` the registration
half of the invariant fails, because closed connections stay in the mapping
(see the counterexample). -/
theorem pool_mapping_invariant (ext : Externals) :
    (∀ s, ReachNS ext s → SysInv s)
    ∧ (∀ (s : Sys) (h mask : Nat) (pending : Option Nat) (rd : Bytes)
         (sr : Nat) (h2 : Nat),
        (aget s.lang_servs h2).isSome = true →
        aget (Sys.poolEvent ext s h mask pending rd sr).sys.lang_servs h2
            = none →
        h2 = h ∧ ∃ ls, aget s.lang_servs h = some ls ∧
          (LangServ.event ext ls s.reg s.docsyms mask rd sr).ls.closed = true) :=
  ⟨reach_inv ext,
   fun s h mask pending rd sr h2 hb ha =>
     removal_only_closed ext s h mask pending rd sr h2 hb ha⟩

/-- Witness for C7 (amended): the zero-byte-receive dispatch on the
one-connection pool removes exactly the dispatched handle, whose connection
reported closed. -/
theorem pool_mapping_invariant_inst :
    5 = 5 ∧ ∃ ls, aget sysOne.lang_servs 5 = some ls ∧
      (LangServ.event extTriv ls sysOne.reg sysOne.docsyms EVENT_READ []
        0).ls.closed = true :=
  (pool_mapping_invariant extTriv).2 sysOne 5 EVENT_READ none [] 0 5
    (by decide) (by decide)

/-- Pool state after startup, one accept, and shutdown. -/
def sysShut : Sys := (Sys.shutdown sysOne).1

/-- C7 counterexample: the state reached by startup, one accept (handle 5)
and shutdown is reachable under the claim's operations, yet handle 5 is
still a key of the handle-to-Connection mapping while no longer registered
with the Registrar — the claimed invariant fails on it. -/
theorem pool_mapping_invariant_cex :
    ReachFull extTriv sysShut
    ∧ (aget sysShut.lang_servs 5).isSome = true
    ∧ (aget sysShut.reg.regs 5).isSome = false := by
  refine ⟨?_, by decide, by decide⟩
  have h1 : ReachFull extTriv sysStart := ReachFull.start 0 ⟨[]⟩ []
  have h2 : ReachFull extTriv sysOne :=
    ReachFull.evStep sysStart 0 EVENT_READ (some 5) [] 0 h1
      (by
        intro c hc
        injection hc with hc
        subst hc
        exact ⟨rfl, by decide⟩)
  exact ReachFull.shutStep sysOne h2

end Langserv
